import Mathlib

/-
Verification of the type-tree analysis and rewrite engine of a
signature-driven dual-target code generator (a proc-macro crate that
derives a server-side command wrapper and a client-side request stub
from one function declaration).

The embedding below is a shallow model of the crate's source:

* `Ty` models the subset of the syntax-tree type grammar that the
  analyzer matches on (src/types.rs): references with an optional
  explicit lifetime, paths whose segments may carry angle-bracketed
  generic arguments, tuples, fixed arrays, slices, parenthesized types,
  and an opaque leaf for every other shape.
* `hasReferenceType` embeds `has_reference_type` (src/types.rs:8-32).
* `transformRefToLifetime` embeds `transform_ref_to_lifetime`
  (src/types.rs:38-110).  The source emits token text and hard-codes
  the shared lifetime name as the letter a; the model rebuilds the tree
  the emitted tokens denote and takes the shared tag as a parameter,
  instantiated with "a" wherever the generator calls it.  Spans are
  dropped: they never influence which tokens are produced.
* `generateTryDeserializeExpr` embeds `generate_try_deserialize_expr`
  (src/types.rs:128-164): a dispatch on the token string of the return
  type, modelled by `tyTokens` which renders a `Ty` the way the token
  stream printer does (tokens separated by single spaces, groups glued
  to their delimiters).
* `generate_client` embeds the client-side generator
  (src/client.rs:18-185) as a record of the semantically relevant
  pieces of the emitted code: the synthesized args struct, the two
  client function names, the parameter and field lists, the field
  initializer and argument forwarding lists, the invoke call, and the
  chosen decode expression.  Constant decoration (the cfg attribute and
  the serde derives) is not modelled.
* `tupleTokensTy` records what the rewriter's rebuilt tuple group
  denotes: the emitted separators stand only between elements, so a
  one-element tuple is re-emitted as a parenthesized type.  `tupleNorm`
  is that shape effect alone, and `noOneTuple` holds of the trees on
  which it is invisible.
* `ReachesView`, `TyStep` and `IsBorrowedView` are the specification
  side: reachability by following the last path segment's generic type
  arguments, tuple elements, the array element, the slice element and
  the parenthesized inner type, as the spec's invariant words it.
* `toPascalCase` models the external convert-case dependency's Pascal
  conversion for snake-case identifiers, which is the shape of every
  function name the macro accepts.
* `JsValue` and `runDecode` model the encode/decode boundary: a
  dispatched-call result exposes an optional string view, an optional
  bool view, and an optional structured-decode failure, and each decode
  template reads exactly the parts the emitted expression would.
-/

mutual
inductive Ty : Type where
  | reference (isMut : Bool) (lifetime : Option String) (inner : Ty)
  | path (segments : List Seg)
  | tuple (elems : List Ty)
  | array (elem : Ty) (len : Nat)
  | slice (elem : Ty)
  | paren (inner : Ty)
  | other (code : String)

inductive Seg : Type where
  | mk (ident : String) (args : PathArgs)

inductive PathArgs : Type where
  | noArgs
  | angle (args : List GArg)
  | parenArgs (code : String)

inductive GArg : Type where
  | tyArg (t : Ty)
  | otherArg (code : String)
end

/- Embeds `has_reference_type` (src/types.rs:8-32).  A reference is a hit
immediately; a path is inspected only at its last segment, and only when
that segment carries angle-bracketed arguments, in which case the type
arguments are scanned (non-type arguments such as lifetimes are skipped);
tuples, arrays, slices and parenthesized types recurse; every other shape
is `false`. -/
mutual
def hasReferenceType : Ty → Bool
  | .reference _ _ _ => true
  | .path segs => hasRefLastSeg segs
  | .tuple elems => hasRefList elems
  | .array elem _ => hasReferenceType elem
  | .slice elem => hasReferenceType elem
  | .paren inner => hasReferenceType inner
  | .other _ => false

def hasRefLastSeg : List Seg → Bool
  | [] => false
  | [s] => hasRefSeg s
  | _ :: rest => hasRefLastSeg rest

def hasRefSeg : Seg → Bool
  | .mk _ (.angle args) => hasRefArgs args
  | .mk _ _ => false

def hasRefArgs : List GArg → Bool
  | [] => false
  | a :: rest => hasRefArg a || hasRefArgs rest

def hasRefArg : GArg → Bool
  | .tyArg inner => hasReferenceType inner
  | .otherArg _ => false

def hasRefList : List Ty → Bool
  | [] => false
  | t :: rest => hasReferenceType t || hasRefList rest
end

/-- The type denoted by the parenthesized token group the rewriter emits
for a rebuilt tuple (src/types.rs:85-92): the separators stand only
between elements and no trailing separator is emitted, so an empty list
denotes the unit tuple, a single element denotes a parenthesized type
(not a one-element tuple), and two or more elements denote a tuple. -/
def tupleTokensTy : List Ty → Ty
  | [t] => Ty.paren t
  | l => Ty.tuple l

/- Embeds `transform_ref_to_lifetime` (src/types.rs:38-110).  A reference
that already carries a lifetime keeps it, an untagged reference receives the
shared tag, and in both cases the element type is rewritten; a path whose
last segment carries angle-bracketed arguments is reassembled from the
unchanged leading segments and the last segment with each generic type
argument rewritten (non-type arguments pass through verbatim); a path
without such arguments, and the opaque leaf, are returned unchanged;
tuples, arrays, slices and parenthesized types recurse.  A rebuilt tuple
is re-emitted without a trailing separator (`tupleTokensTy`), so a
one-element tuple comes back as a parenthesized type. -/
mutual
def transformRefToLifetime (tag : String) : Ty → Ty
  | .reference m lt inner =>
    match lt with
    | some l => .reference m (some l) (transformRefToLifetime tag inner)
    | none => .reference m (some tag) (transformRefToLifetime tag inner)
  | .path segs => .path (transformSegs tag segs)
  | .tuple elems => tupleTokensTy (transformList tag elems)
  | .array e n => .array (transformRefToLifetime tag e) n
  | .slice e => .slice (transformRefToLifetime tag e)
  | .paren inner => .paren (transformRefToLifetime tag inner)
  | .other c => .other c

def transformSegs (tag : String) : List Seg → List Seg
  | [] => []
  | [.mk id (.angle args)] => [.mk id (.angle (transformArgs tag args))]
  | [s] => [s]
  | s :: rest => s :: transformSegs tag rest

def transformArgs (tag : String) : List GArg → List GArg
  | [] => []
  | .tyArg t :: rest => .tyArg (transformRefToLifetime tag t) :: transformArgs tag rest
  | .otherArg c :: rest => .otherArg c :: transformArgs tag rest

def transformList (tag : String) : List Ty → List Ty
  | [] => []
  | t :: rest => transformRefToLifetime tag t :: transformList tag rest
end

/- The preorder list of the lifetime slots of every reference node at the
positions the analyzer and the rewriter traverse: the node itself, the last
path segment's generic type arguments, tuple elements, the array element,
the slice element and the parenthesized inner type. -/
mutual
def refTags : Ty → List (Option String)
  | .reference _ lt inner => lt :: refTags inner
  | .path segs => refTagsSegs segs
  | .tuple elems => refTagsList elems
  | .array e _ => refTags e
  | .slice e => refTags e
  | .paren e => refTags e
  | .other _ => []

def refTagsSegs : List Seg → List (Option String)
  | [] => []
  | [.mk _ (.angle args)] => refTagsArgs args
  | [_] => []
  | _ :: rest => refTagsSegs rest

def refTagsArgs : List GArg → List (Option String)
  | [] => []
  | .tyArg t :: rest => refTags t ++ refTagsArgs rest
  | .otherArg _ :: rest => refTagsArgs rest

def refTagsList : List Ty → List (Option String)
  | [] => []
  | t :: rest => refTags t ++ refTagsList rest
end

/- The same tree with every reference lifetime slot at the traversed
positions blanked: two types are structural mirrors of one another exactly
when their blanked trees are equal. -/
mutual
def eraseTags : Ty → Ty
  | .reference m _ inner => .reference m none (eraseTags inner)
  | .path segs => .path (eraseTagsSegs segs)
  | .tuple elems => .tuple (eraseTagsList elems)
  | .array e n => .array (eraseTags e) n
  | .slice e => .slice (eraseTags e)
  | .paren e => .paren (eraseTags e)
  | .other c => .other c

def eraseTagsSegs : List Seg → List Seg
  | [] => []
  | [.mk id (.angle args)] => [.mk id (.angle (eraseTagsArgs args))]
  | [s] => [s]
  | s :: rest => s :: eraseTagsSegs rest

def eraseTagsArgs : List GArg → List GArg
  | [] => []
  | .tyArg t :: rest => .tyArg (eraseTags t) :: eraseTagsArgs rest
  | .otherArg c :: rest => .otherArg c :: eraseTagsArgs rest

def eraseTagsList : List Ty → List Ty
  | [] => []
  | t :: rest => eraseTags t :: eraseTagsList rest
end

/- Whether no position the rewriter traverses (the reference inner type,
the last path segment's generic type arguments, tuple elements, the array
element, the slice element, the parenthesized inner type) holds a
one-element tuple.  On such trees the rewriter's tuple re-emission loses
nothing. -/
mutual
def noOneTuple : Ty → Bool
  | .reference _ _ inner => noOneTuple inner
  | .path segs => noOneTupleSegs segs
  | .tuple [_] => false
  | .tuple elems => noOneTupleList elems
  | .array e _ => noOneTuple e
  | .slice e => noOneTuple e
  | .paren e => noOneTuple e
  | .other _ => true

def noOneTupleSegs : List Seg → Bool
  | [] => true
  | [.mk _ (.angle args)] => noOneTupleArgs args
  | [_] => true
  | _ :: rest => noOneTupleSegs rest

def noOneTupleArgs : List GArg → Bool
  | [] => true
  | .tyArg t :: rest => noOneTuple t && noOneTupleArgs rest
  | .otherArg _ :: rest => noOneTupleArgs rest

def noOneTupleList : List Ty → Bool
  | [] => true
  | t :: rest => noOneTuple t && noOneTupleList rest
end

/- The pure shape effect of the rewriter's re-emission, separated from its
tagging: at every traversed position a one-element tuple collapses to a
parenthesized type, everything else keeps its shape and its tags. -/
mutual
def tupleNorm : Ty → Ty
  | .reference m lt inner => .reference m lt (tupleNorm inner)
  | .path segs => .path (tupleNormSegs segs)
  | .tuple elems => tupleTokensTy (tupleNormList elems)
  | .array e n => .array (tupleNorm e) n
  | .slice e => .slice (tupleNorm e)
  | .paren e => .paren (tupleNorm e)
  | .other c => .other c

def tupleNormSegs : List Seg → List Seg
  | [] => []
  | [.mk id (.angle args)] => [.mk id (.angle (tupleNormArgs args))]
  | [s] => [s]
  | s :: rest => s :: tupleNormSegs rest

def tupleNormArgs : List GArg → List GArg
  | [] => []
  | .tyArg t :: rest => .tyArg (tupleNorm t) :: tupleNormArgs rest
  | .otherArg c :: rest => .otherArg c :: tupleNormArgs rest

def tupleNormList : List Ty → List Ty
  | [] => []
  | t :: rest => tupleNorm t :: tupleNormList rest
end

/- Renders a `Ty` the way the token stream printer renders the quoted
type: tokens separated by single spaces, group delimiters glued to the
group's content.  Only the canonical identities matter to the decode
dispatch; everything else merely has to stay distinct from them. -/
mutual
def tyTokens : Ty → String
  | .reference m lt inner =>
    "&" ++ (match lt with | some l => " " ++ "'" ++ l | none => "") ++
      (if m then " mut" else "") ++ " " ++ tyTokens inner
  | .path segs => segsTokens segs
  | .tuple [t] => "(" ++ tyTokens t ++ " ,)"
  | .tuple elems => "(" ++ tyTokensList elems ++ ")"
  | .array e n => "[" ++ tyTokens e ++ " ; " ++ toString n ++ "]"
  | .slice e => "[" ++ tyTokens e ++ "]"
  | .paren inner => "(" ++ tyTokens inner ++ ")"
  | .other c => c

def segsTokens : List Seg → String
  | [] => ""
  | [s] => segTokens s
  | s :: rest => segTokens s ++ " :: " ++ segsTokens rest

def segTokens : Seg → String
  | .mk id .noArgs => id
  | .mk id (.angle args) => id ++ " < " ++ argsTokens args ++ " >"
  | .mk id (.parenArgs c) => id ++ " " ++ c

def argsTokens : List GArg → String
  | [] => ""
  | [a] => argTokens a
  | a :: rest => argTokens a ++ " , " ++ argsTokens rest

def argTokens : GArg → String
  | .tyArg t => tyTokens t
  | .otherArg c => c

def tyTokensList : List Ty → String
  | [] => ""
  | [t] => tyTokens t
  | t :: rest => tyTokens t ++ " , " ++ tyTokensList rest
end

/-- The decode expression templates `generate_try_deserialize_expr` can
emit, each carrying the message its failure path reports. -/
inductive DecodeExpr : Type where
  | asStringOr (msg : String)
  | okUnit
  | asBoolOr (msg : String)
  | fromValueMapErr (msgStart : String)
deriving DecidableEq

/-- The eight numeric token identities the source's `||` chain tests
(src/types.rs:144-151). -/
def isNumericIdentity (s : String) : Bool :=
  s = "i32" || s = "i64" || s = "u32" || s = "u64" ||
    s = "f32" || s = "f64" || s = "isize" || s = "usize"

/-- Embeds `generate_try_deserialize_expr` (src/types.rs:128-164): a
closed-form dispatch on the token string of the return type. -/
def generateTryDeserializeExpr (typeStr : String) : DecodeExpr :=
  if typeStr = "String" then
    DecodeExpr.asStringOr "Expected string response"
  else if typeStr = "()" then
    DecodeExpr.okUnit
  else if typeStr = "bool" then
    DecodeExpr.asBoolOr "Expected bool response"
  else if isNumericIdentity typeStr = true then
    DecodeExpr.fromValueMapErr "Failed to deserialize number"
  else
    DecodeExpr.fromValueMapErr "Failed to deserialize response"

/-- The encode/decode boundary's view of a dispatched-call result: the
optional string accessor, the optional bool accessor, and the structured
decode which either succeeds or reports an error message. -/
structure JsValue : Type where
  stringVal : Option String
  boolVal : Option Bool
  fromValueError : Option String

/-- What the emitted decode expression does with a dispatched-call result:
`none` on success, `some message` on failure. -/
def runDecode : DecodeExpr → JsValue → Option String
  | .asStringOr msg, v => match v.stringVal with | some _ => none | none => some msg
  | .okUnit, _ => none
  | .asBoolOr msg, v => match v.boolVal with | some _ => none | none => some msg
  | .fromValueMapErr msgStart, v =>
    v.fromValueError.map (fun e => msgStart ++ ": " ++ e)

/-- A function parameter pattern: either a plain identifier or any other
pattern shape, kept as opaque text. -/
inductive Pat : Type where
  | ident (name : String)
  | other (code : String)
deriving DecidableEq

/-- The name of a plain identifier pattern, `none` for any other shape. -/
def patIdentName : Pat → Option String
  | .ident n => some n
  | .other _ => none

/-- A function argument: a receiver (self parameter) or a typed
pattern-type pair. -/
inductive FnArg : Type where
  | receiver (code : String)
  | typed (pat : Pat) (ty : Ty)

/-- The part of a function signature the generator consumes. -/
structure Signature : Type where
  ident : String
  inputs : List FnArg
  output : Option Ty

/-- The part of a parsed function item the client generator consumes. -/
structure ItemFn : Type where
  vis : String
  sig : Signature

/-- Embeds `get_return_type` (src/types.rs:113-119): the token string of
the declared return type, or the unit token for a function that declares
none. -/
def getReturnType (sig : Signature) : String :=
  match sig.output with
  | none => "()"
  | some ty => tyTokens ty

/-- The underscore-separated words of an identifier, as character lists. -/
def underscoreWords : List Char → List (List Char)
  | [] => [[]]
  | c :: cs =>
    let rest := underscoreWords cs
    if c = '_' then [] :: rest
    else (c :: rest.headD []) :: rest.tail

/-- Capitalizes the first character of one word. -/
def capitalizeWord : List Char → List Char
  | [] => []
  | c :: cs => Char.toUpper c :: cs

/-- Models the external convert-case dependency's Pascal conversion for a
snake-case identifier: the underscore-separated words, each capitalized,
concatenated. -/
def toPascalCase (s : String) : String :=
  String.mk (((underscoreWords s.data).map capitalizeWord).flatten)

/-- The synthesized args struct: its name, its lifetime parameter list
(either empty or the single shared tag), and its fields in declaration
order, each a pattern with its possibly rewritten type. -/
structure StructDef : Type where
  name : String
  lifetimeParams : List String
  fields : List (Pat × Ty)

/-- The invoke call emitted in the body of the fallible client function:
with a serialized args struct, or with the explicit null payload when the
function has no typed parameters.  Either way it carries the call name the
dispatch is addressed to. -/
inductive InvokeCall : Type where
  | withArgs (callName : String) (structName : String)
  | noArgs (callName : String)
deriving DecidableEq

/-- The name the invoke call dispatches to. -/
def InvokeCall.callName : InvokeCall → String
  | .withArgs n _ => n
  | .noArgs n => n

/-- The semantically relevant content of the generated client artifact. -/
structure ClientCode : Type where
  argsStructName : String
  tryFnName : String
  fnNameIdent : String
  vis : String
  structDef : Option StructDef
  fnParams : List (Pat × Ty)
  fieldInits : List String
  argForwards : List String
  invokeCall : InvokeCall
  fnLifetimeParams : List String
  returnTypeText : String
  tryDeserialize : DecodeExpr

/-- The typed arguments of the signature in declaration order, receivers
filtered out (src/client.rs:35-46). -/
def clientArgs (input : ItemFn) : List (Pat × Ty) :=
  input.sig.inputs.filterMap fun a =>
    match a with
    | FnArg.typed p ty => some (p, ty)
    | FnArg.receiver _ => none

/-- Whether any typed argument's type contains a reference
(src/client.rs:52). -/
def clientNeedsLifetime (input : ItemFn) : Bool :=
  (clientArgs input).any fun a => hasReferenceType a.2

/-- The args struct fields (src/client.rs:55-67): each pattern with its
type, rewritten to the shared lifetime when any argument needs one. -/
def clientStructFields (input : ItemFn) : List (Pat × Ty) :=
  (clientArgs input).map fun a =>
    (a.1, if clientNeedsLifetime input then transformRefToLifetime "a" a.2 else a.2)

/-- The client function parameters (src/client.rs:70-82), built the same
way as the struct fields. -/
def clientFnParams (input : ItemFn) : List (Pat × Ty) :=
  (clientArgs input).map fun a =>
    (a.1, if clientNeedsLifetime input then transformRefToLifetime "a" a.2 else a.2)

/-- The struct field initializers (src/client.rs:85-95): the names of the
plain-identifier patterns, in order; other patterns contribute nothing. -/
def clientFieldInits (input : ItemFn) : List String :=
  (clientArgs input).filterMap fun a => patIdentName a.1

/-- The forwarded arguments of the convenience function
(src/client.rs:98-108), built the same way as the field initializers. -/
def clientArgForwards (input : ItemFn) : List String :=
  (clientArgs input).filterMap fun a => patIdentName a.1

/-- Embeds `generate_client` (src/client.rs:18-185). -/
def generate_client (input : ItemFn) : ClientCode :=
  let fnNameStr := input.sig.ident
  let argsStructName := toPascalCase fnNameStr ++ "Args"
  let tryFnName := "try_" ++ fnNameStr
  let hasArgs := !(clientArgs input).isEmpty
  let needsLifetime := clientNeedsLifetime input
  let returnType := getReturnType input.sig
  { argsStructName := argsStructName
    tryFnName := tryFnName
    fnNameIdent := fnNameStr
    vis := input.vis
    structDef :=
      if hasArgs then
        some { name := argsStructName
               lifetimeParams := if needsLifetime then ["a"] else []
               fields := clientStructFields input }
      else none
    fnParams := clientFnParams input
    fieldInits := clientFieldInits input
    argForwards := clientArgForwards input
    invokeCall :=
      if hasArgs then InvokeCall.withArgs fnNameStr argsStructName
      else InvokeCall.noArgs fnNameStr
    fnLifetimeParams := if needsLifetime then ["a"] else []
    returnTypeText := returnType
    tryDeserialize := generateTryDeserializeExpr returnType }

/-- A borrowed view: a reference node. -/
def IsBorrowedView (t : Ty) : Prop := ∃ m lt inner, t = Ty.reference m lt inner

/-- One reachability step of the spec's invariant: into the last path
segment's generic type arguments, a tuple element, the array element, the
slice element, or the parenthesized inner type. -/
inductive TyStep : Ty → Ty → Prop where
  | lastSegTypeArg {segs : List Seg} {n : String} {args : List GArg} {t : Ty} :
      segs.getLast? = some (Seg.mk n (PathArgs.angle args)) → GArg.tyArg t ∈ args →
      TyStep (Ty.path segs) t
  | tupleElem {elems : List Ty} {t : Ty} : t ∈ elems → TyStep (Ty.tuple elems) t
  | arrayElem {e : Ty} {n : Nat} : TyStep (Ty.array e n) e
  | sliceElem {e : Ty} : TyStep (Ty.slice e) e
  | parenInner {e : Ty} : TyStep (Ty.paren e) e

/-- The spec's invariant, stated from its words: some borrowed view is
reachable from `t` by the steps of `TyStep`. -/
def ReachesView (t : Ty) : Prop :=
  ∃ u, Relation.ReflTransGen TyStep t u ∧ IsBorrowedView u

/-- The token identities of the fixed-width signed and unsigned integer
types and the floating-point types, as the spec's decode table words it. -/
def fixedWidthNumericIdentities : List String :=
  ["i8", "i16", "i32", "i64", "i128", "u8", "u16", "u32", "u64", "u128", "f32", "f64"]

/-- The bare string slice type. -/
def strTy : Ty := Ty.path [Seg.mk "str" PathArgs.noArgs]

/-- The owned string type. -/
def stringTy : Ty := Ty.path [Seg.mk "String" PathArgs.noArgs]

/-- A 32-bit unsigned integer type. -/
def u32Ty : Ty := Ty.path [Seg.mk "u32" PathArgs.noArgs]

/-- The boolean type. -/
def boolTy : Ty := Ty.path [Seg.mk "bool" PathArgs.noArgs]

/-- A named type whose sole generic type argument is the one-element tuple
of the boolean type: reference-free, but its argument is re-emitted by the
rewriter as a parenthesized type. -/
def fooOneTupleTy : Ty :=
  Ty.path [Seg.mk "Foo" (PathArgs.angle [GArg.tyArg (Ty.tuple [boolTy])])]

/-- The clone-on-write string type with an elided lifetime argument, as in
the repository's cow test. -/
def cowTy : Ty :=
  Ty.path [Seg.mk "std" PathArgs.noArgs, Seg.mk "borrow" PathArgs.noArgs,
    Seg.mk "Cow" (PathArgs.angle [GArg.otherArg "'_", GArg.tyArg strTy])]

/-- The greeting example: one reference parameter, string return. -/
def greetFn : ItemFn :=
  { vis := "pub"
    sig := { ident := "greet"
             inputs := [FnArg.typed (Pat.ident "name") (Ty.reference false none strTy)]
             output := some stringTy } }

/-- The args struct the generator synthesizes for `greetFn`. -/
def greetSd : StructDef :=
  { name := "GreetArgs"
    lifetimeParams := ["a"]
    fields := [(Pat.ident "name", Ty.reference false (some "a") strTy)] }

/-- The cow example: one clone-on-write parameter, string return. -/
def takesCowFn : ItemFn :=
  { vis := "pub"
    sig := { ident := "takes_cow"
             inputs := [FnArg.typed (Pat.ident "s") cowTy]
             output := some stringTy } }

/-- A function whose first parameter uses a tuple pattern rather than a
plain identifier, and whose second is a plain identifier. -/
def pairFn : ItemFn :=
  { vis := "pub"
    sig := { ident := "process_pair"
             inputs := [FnArg.typed (Pat.other "(a, b)") (Ty.tuple [u32Ty, u32Ty]),
                        FnArg.typed (Pat.ident "x") boolTy]
             output := none } }

/-- The args struct the generator synthesizes for `pairFn`. -/
def pairSd : StructDef :=
  { name := "ProcessPairArgs"
    lifetimeParams := []
    fields := [(Pat.other "(a, b)", Ty.tuple [u32Ty, u32Ty]), (Pat.ident "x", boolTy)] }

theorem transformSegs_length (tag : String) : (segs : List Seg) →
    (transformSegs tag segs).length = segs.length
  | [] => by simp [transformSegs]
  | [.mk id (.angle args)] => by simp [transformSegs]
  | [.mk id .noArgs] => by simp [transformSegs]
  | [.mk id (.parenArgs c)] => by simp [transformSegs]
  | s :: s2 :: rest => by
    simp only [transformSegs, List.length_cons]
    rw [transformSegs_length tag (s2 :: rest)]
    simp

theorem transformSegs_cons_ne_nil (tag : String) (s : Seg) (rest : List Seg) :
    ∃ y ys, transformSegs tag (s :: rest) = y :: ys := by
  have hne : transformSegs tag (s :: rest) ≠ [] := by
    intro hnil
    have hl := transformSegs_length tag (s :: rest)
    rw [hnil] at hl
    simp at hl
  exact List.exists_cons_of_ne_nil hne

theorem append_singleton_cons {α : Type} (pfx : List α) (s : α) :
    ∃ y ys, pfx ++ [s] = y :: ys := by
  cases pfx with
  | nil => exact ⟨s, [], rfl⟩
  | cons b bs => exact ⟨b, bs ++ [s], rfl⟩

theorem tupleNormSegs_length : (segs : List Seg) →
    (tupleNormSegs segs).length = segs.length
  | [] => by simp [tupleNormSegs]
  | [.mk id (.angle args)] => by simp [tupleNormSegs]
  | [.mk id .noArgs] => by simp [tupleNormSegs]
  | [.mk id (.parenArgs c)] => by simp [tupleNormSegs]
  | s :: s2 :: rest => by
    simp only [tupleNormSegs, List.length_cons]
    rw [tupleNormSegs_length (s2 :: rest)]
    simp

theorem tupleNormSegs_cons_ne_nil (s : Seg) (rest : List Seg) :
    ∃ y ys, tupleNormSegs (s :: rest) = y :: ys := by
  have hne : tupleNormSegs (s :: rest) ≠ [] := by
    intro hnil
    have hl := tupleNormSegs_length (s :: rest)
    rw [hnil] at hl
    simp at hl
  exact List.exists_cons_of_ne_nil hne

theorem transform_tupleTokensTy (tag : String) : (l : List Ty) →
    transformRefToLifetime tag (tupleTokensTy l) = tupleTokensTy (transformList tag l)
  | [] => rfl
  | [_] => rfl
  | _ :: _ :: _ => rfl

theorem refTags_tupleTokensTy : (l : List Ty) →
    refTags (tupleTokensTy l) = refTagsList l
  | [] => rfl
  | [t] => by simp [tupleTokensTy, refTags, refTagsList]
  | _ :: _ :: _ => rfl

theorem eraseTags_tupleTokensTy : (l : List Ty) →
    eraseTags (tupleTokensTy l) = tupleTokensTy (eraseTagsList l)
  | [] => rfl
  | [_] => rfl
  | a :: b :: bs => by simp [tupleTokensTy, eraseTags, eraseTagsList]

theorem reachesView_reference (m : Bool) (lt : Option String) (i : Ty) :
    ReachesView (Ty.reference m lt i) :=
  ⟨Ty.reference m lt i, Relation.ReflTransGen.refl, m, lt, i, rfl⟩

theorem reachesView_other (c : String) : ¬ ReachesView (Ty.other c) := by
  rintro ⟨u, hr, hview⟩
  rcases Relation.ReflTransGen.cases_head hr with heq | ⟨c', hstep, hrest⟩
  · rw [← heq] at hview
    rcases hview with ⟨m, lt, i, h⟩
    cases h
  · cases hstep

theorem reachesView_paren (e : Ty) : ReachesView (Ty.paren e) ↔ ReachesView e := by
  constructor
  · rintro ⟨u, hr, hview⟩
    rcases Relation.ReflTransGen.cases_head hr with heq | ⟨c', hstep, hrest⟩
    · rw [← heq] at hview
      rcases hview with ⟨m, lt, i, h⟩
      cases h
    · cases hstep
      exact ⟨u, hrest, hview⟩
  · rintro ⟨u, hr, hview⟩
    exact ⟨u, Relation.ReflTransGen.head TyStep.parenInner hr, hview⟩

theorem reachesView_array (e : Ty) (n : Nat) :
    ReachesView (Ty.array e n) ↔ ReachesView e := by
  constructor
  · rintro ⟨u, hr, hview⟩
    rcases Relation.ReflTransGen.cases_head hr with heq | ⟨c', hstep, hrest⟩
    · rw [← heq] at hview
      rcases hview with ⟨m, lt, i, h⟩
      cases h
    · cases hstep
      exact ⟨u, hrest, hview⟩
  · rintro ⟨u, hr, hview⟩
    exact ⟨u, Relation.ReflTransGen.head TyStep.arrayElem hr, hview⟩

theorem reachesView_slice (e : Ty) : ReachesView (Ty.slice e) ↔ ReachesView e := by
  constructor
  · rintro ⟨u, hr, hview⟩
    rcases Relation.ReflTransGen.cases_head hr with heq | ⟨c', hstep, hrest⟩
    · rw [← heq] at hview
      rcases hview with ⟨m, lt, i, h⟩
      cases h
    · cases hstep
      exact ⟨u, hrest, hview⟩
  · rintro ⟨u, hr, hview⟩
    exact ⟨u, Relation.ReflTransGen.head TyStep.sliceElem hr, hview⟩

theorem reachesView_path (segs : List Seg) :
    ReachesView (Ty.path segs) ↔
      ∃ n args, segs.getLast? = some (Seg.mk n (PathArgs.angle args)) ∧
        ∃ u, GArg.tyArg u ∈ args ∧ ReachesView u := by
  constructor
  · rintro ⟨u, hr, hview⟩
    rcases Relation.ReflTransGen.cases_head hr with heq | ⟨c', hstep, hrest⟩
    · rw [← heq] at hview
      rcases hview with ⟨m, lt, i, h⟩
      cases h
    · cases hstep with
      | lastSegTypeArg hlast hmem => exact ⟨_, _, hlast, c', hmem, u, hrest, hview⟩
  · rintro ⟨n, args, hlast, u, hmem, w, hr, hview⟩
    exact ⟨w, Relation.ReflTransGen.head (TyStep.lastSegTypeArg hlast hmem) hr, hview⟩

theorem reachesView_tuple (elems : List Ty) :
    ReachesView (Ty.tuple elems) ↔ ∃ u ∈ elems, ReachesView u := by
  constructor
  · rintro ⟨u, hr, hview⟩
    rcases Relation.ReflTransGen.cases_head hr with heq | ⟨c', hstep, hrest⟩
    · rw [← heq] at hview
      rcases hview with ⟨m, lt, i, h⟩
      cases h
    · cases hstep with
      | tupleElem hmem => exact ⟨c', hmem, u, hrest, hview⟩
  · rintro ⟨u, hmem, w, hr, hview⟩
    exact ⟨w, Relation.ReflTransGen.head (TyStep.tupleElem hmem) hr, hview⟩

mutual
theorem hasRefType_iff_view : (t : Ty) → (hasReferenceType t = true ↔ ReachesView t)
  | .reference m lt inner =>
    iff_of_true rfl (reachesView_reference m lt inner)
  | .path segs => by
    simp only [hasReferenceType]
    rw [lastSeg_iff_view segs, reachesView_path segs]
  | .tuple elems => by
    simp only [hasReferenceType]
    rw [refList_iff_view elems, reachesView_tuple elems]
  | .array e n => by
    simp only [hasReferenceType]
    rw [hasRefType_iff_view e, reachesView_array e n]
  | .slice e => by
    simp only [hasReferenceType]
    rw [hasRefType_iff_view e, reachesView_slice e]
  | .paren inner => by
    simp only [hasReferenceType]
    rw [hasRefType_iff_view inner, reachesView_paren inner]
  | .other c =>
    iff_of_false (by simp [hasReferenceType]) (reachesView_other c)

theorem lastSeg_iff_view : (segs : List Seg) →
    (hasRefLastSeg segs = true ↔
      ∃ n args, segs.getLast? = some (Seg.mk n (PathArgs.angle args)) ∧
        ∃ u, GArg.tyArg u ∈ args ∧ ReachesView u)
  | [] => by simp [hasRefLastSeg]
  | [s] => by
    simp only [hasRefLastSeg, List.getLast?_singleton]
    rw [refSeg_iff_view s]
    constructor
    · rintro ⟨n, args, heq, h⟩
      exact ⟨n, args, by rw [heq], h⟩
    · rintro ⟨n, args, heq, h⟩
      exact ⟨n, args, by injection heq, h⟩
  | s :: s2 :: rest => by
    simp only [hasRefLastSeg, List.getLast?_cons_cons]
    exact lastSeg_iff_view (s2 :: rest)

theorem refSeg_iff_view : (s : Seg) →
    (hasRefSeg s = true ↔
      ∃ n args, s = Seg.mk n (PathArgs.angle args) ∧
        ∃ u, GArg.tyArg u ∈ args ∧ ReachesView u)
  | .mk n (.angle args) => by
    simp only [hasRefSeg]
    rw [refArgs_iff_view args]
    constructor
    · intro h
      exact ⟨n, args, rfl, h⟩
    · rintro ⟨n', args', heq, h⟩
      injection heq with h1 h2
      injection h2 with h3
      rw [h3]
      exact h
  | .mk n .noArgs => by
    simp only [hasRefSeg]
    constructor
    · intro h
      cases h
    · rintro ⟨n', args', heq, h⟩
      cases heq
  | .mk n (.parenArgs c) => by
    simp only [hasRefSeg]
    constructor
    · intro h
      cases h
    · rintro ⟨n', args', heq, h⟩
      cases heq

theorem refArgs_iff_view : (l : List GArg) →
    (hasRefArgs l = true ↔ ∃ u, GArg.tyArg u ∈ l ∧ ReachesView u)
  | [] => by simp [hasRefArgs]
  | a :: rest => by
    simp only [hasRefArgs, Bool.or_eq_true]
    rw [refArg_iff_view a, refArgs_iff_view rest]
    constructor
    · rintro (⟨u, heq, h⟩ | ⟨u, hmem, h⟩)
      · exact ⟨u, by rw [heq]; exact List.mem_cons_self _ _, h⟩
      · exact ⟨u, List.mem_cons_of_mem a hmem, h⟩
    · rintro ⟨u, hmem, h⟩
      rcases List.mem_cons.mp hmem with heq | hmem'
      · exact Or.inl ⟨u, heq.symm, h⟩
      · exact Or.inr ⟨u, hmem', h⟩

theorem refArg_iff_view : (a : GArg) →
    (hasRefArg a = true ↔ ∃ u, a = GArg.tyArg u ∧ ReachesView u)
  | .tyArg t => by
    simp only [hasRefArg]
    rw [hasRefType_iff_view t]
    constructor
    · intro h
      exact ⟨t, rfl, h⟩
    · rintro ⟨u, heq, h⟩
      injection heq with h1
      rw [h1]
      exact h
  | .otherArg c => by
    simp only [hasRefArg]
    constructor
    · intro h
      cases h
    · rintro ⟨u, heq, h⟩
      cases heq

theorem refList_iff_view : (l : List Ty) →
    (hasRefList l = true ↔ ∃ u ∈ l, ReachesView u)
  | [] => by simp [hasRefList]
  | t :: rest => by
    simp only [hasRefList, Bool.or_eq_true]
    rw [hasRefType_iff_view t, refList_iff_view rest]
    constructor
    · rintro (h | ⟨u, hmem, h⟩)
      · exact ⟨t, List.mem_cons_self _ _, h⟩
      · exact ⟨u, List.mem_cons_of_mem t hmem, h⟩
    · rintro ⟨u, hmem, h⟩
      rcases List.mem_cons.mp hmem with heq | hmem'
      · rw [← heq]
        exact Or.inl h
      · exact Or.inr ⟨u, hmem', h⟩
end

mutual
theorem transform_idem (tag : String) : (t : Ty) →
    transformRefToLifetime tag (transformRefToLifetime tag t) = transformRefToLifetime tag t
  | .reference m lt inner => by
    cases lt <;> simp [transformRefToLifetime, transform_idem tag inner]
  | .path segs => by simp [transformRefToLifetime, transformSegs_idem tag segs]
  | .tuple elems => by
    simp only [transformRefToLifetime]
    rw [transform_tupleTokensTy tag (transformList tag elems), transformList_idem tag elems]
  | .array e n => by simp [transformRefToLifetime, transform_idem tag e]
  | .slice e => by simp [transformRefToLifetime, transform_idem tag e]
  | .paren inner => by simp [transformRefToLifetime, transform_idem tag inner]
  | .other c => by simp [transformRefToLifetime]

theorem transformSegs_idem (tag : String) : (segs : List Seg) →
    transformSegs tag (transformSegs tag segs) = transformSegs tag segs
  | [] => by simp [transformSegs]
  | [.mk id (.angle args)] => by simp [transformSegs, transformArgs_idem tag args]
  | [.mk id .noArgs] => by simp [transformSegs]
  | [.mk id (.parenArgs c)] => by simp [transformSegs]
  | s :: s2 :: rest => by
    have h := transformSegs_idem tag (s2 :: rest)
    obtain ⟨y, ys, hy⟩ := transformSegs_cons_ne_nil tag s2 rest
    simp only [transformSegs]
    rw [hy]
    simp only [transformSegs]
    rw [← hy, h, hy]

theorem transformArgs_idem (tag : String) : (l : List GArg) →
    transformArgs tag (transformArgs tag l) = transformArgs tag l
  | [] => by simp [transformArgs]
  | .tyArg t :: rest => by simp [transformArgs, transform_idem tag t, transformArgs_idem tag rest]
  | .otherArg c :: rest => by simp [transformArgs, transformArgs_idem tag rest]

theorem transformList_idem (tag : String) : (l : List Ty) →
    transformList tag (transformList tag l) = transformList tag l
  | [] => by simp [transformList]
  | t :: rest => by simp [transformList, transform_idem tag t, transformList_idem tag rest]
end

mutual
theorem transform_noop (tag : String) : (t : Ty) → hasReferenceType t = false →
    noOneTuple t = true → transformRefToLifetime tag t = t
  | .reference m lt inner => by
    intro h hn
    simp [hasReferenceType] at h
  | .path segs => by
    intro h hn
    simp only [hasReferenceType] at h
    simp only [noOneTuple] at hn
    simp [transformRefToLifetime, transformSegs_noop tag segs h hn]
  | .tuple [] => by
    intro h hn
    rfl
  | .tuple [e] => by
    intro h hn
    simp [noOneTuple] at hn
  | .tuple (e1 :: e2 :: rest) => by
    intro h hn
    simp only [hasReferenceType] at h
    simp only [noOneTuple] at hn
    simp only [transformRefToLifetime]
    rw [transformList_noop tag (e1 :: e2 :: rest) h hn]
    rfl
  | .array e n => by
    intro h hn
    simp only [hasReferenceType] at h
    simp only [noOneTuple] at hn
    simp [transformRefToLifetime, transform_noop tag e h hn]
  | .slice e => by
    intro h hn
    simp only [hasReferenceType] at h
    simp only [noOneTuple] at hn
    simp [transformRefToLifetime, transform_noop tag e h hn]
  | .paren inner => by
    intro h hn
    simp only [hasReferenceType] at h
    simp only [noOneTuple] at hn
    simp [transformRefToLifetime, transform_noop tag inner h hn]
  | .other c => by
    intro h hn
    simp [transformRefToLifetime]

theorem transformSegs_noop (tag : String) : (segs : List Seg) → hasRefLastSeg segs = false →
    noOneTupleSegs segs = true → transformSegs tag segs = segs
  | [] => by
    intro h hn
    simp [transformSegs]
  | [.mk id (.angle args)] => by
    intro h hn
    simp only [hasRefLastSeg, hasRefSeg] at h
    simp only [noOneTupleSegs] at hn
    simp [transformSegs, transformArgs_noop tag args h hn]
  | [.mk id .noArgs] => by
    intro h hn
    simp [transformSegs]
  | [.mk id (.parenArgs c)] => by
    intro h hn
    simp [transformSegs]
  | s :: s2 :: rest => by
    intro h hn
    simp only [hasRefLastSeg] at h
    simp only [noOneTupleSegs] at hn
    simp only [transformSegs]
    rw [transformSegs_noop tag (s2 :: rest) h hn]

theorem transformArgs_noop (tag : String) : (l : List GArg) → hasRefArgs l = false →
    noOneTupleArgs l = true → transformArgs tag l = l
  | [] => by
    intro h hn
    simp [transformArgs]
  | .tyArg t :: rest => by
    intro h hn
    simp only [hasRefArgs, hasRefArg, Bool.or_eq_false_iff] at h
    simp only [noOneTupleArgs, Bool.and_eq_true] at hn
    simp [transformArgs, transform_noop tag t h.1 hn.1, transformArgs_noop tag rest h.2 hn.2]
  | .otherArg c :: rest => by
    intro h hn
    simp only [hasRefArgs, hasRefArg, Bool.false_or] at h
    simp only [noOneTupleArgs] at hn
    simp [transformArgs, transformArgs_noop tag rest h hn]

theorem transformList_noop (tag : String) : (l : List Ty) → hasRefList l = false →
    noOneTupleList l = true → transformList tag l = l
  | [] => by
    intro h hn
    simp [transformList]
  | t :: rest => by
    intro h hn
    simp only [hasRefList, Bool.or_eq_false_iff] at h
    simp only [noOneTupleList, Bool.and_eq_true] at hn
    simp [transformList, transform_noop tag t h.1 hn.1, transformList_noop tag rest h.2 hn.2]
end

mutual
theorem tupleNorm_noop : (t : Ty) → noOneTuple t = true → tupleNorm t = t
  | .reference m lt inner => by
    intro hn
    simp only [noOneTuple] at hn
    simp [tupleNorm, tupleNorm_noop inner hn]
  | .path segs => by
    intro hn
    simp only [noOneTuple] at hn
    simp [tupleNorm, tupleNormSegs_noop segs hn]
  | .tuple [] => by
    intro hn
    rfl
  | .tuple [e] => by
    intro hn
    simp [noOneTuple] at hn
  | .tuple (e1 :: e2 :: rest) => by
    intro hn
    simp only [noOneTuple] at hn
    simp only [tupleNorm]
    rw [tupleNormList_noop (e1 :: e2 :: rest) hn]
    rfl
  | .array e n => by
    intro hn
    simp only [noOneTuple] at hn
    simp [tupleNorm, tupleNorm_noop e hn]
  | .slice e => by
    intro hn
    simp only [noOneTuple] at hn
    simp [tupleNorm, tupleNorm_noop e hn]
  | .paren e => by
    intro hn
    simp only [noOneTuple] at hn
    simp [tupleNorm, tupleNorm_noop e hn]
  | .other c => by
    intro hn
    rfl

theorem tupleNormSegs_noop : (segs : List Seg) → noOneTupleSegs segs = true →
    tupleNormSegs segs = segs
  | [] => by
    intro hn
    rfl
  | [.mk id (.angle args)] => by
    intro hn
    simp only [noOneTupleSegs] at hn
    simp [tupleNormSegs, tupleNormArgs_noop args hn]
  | [.mk id .noArgs] => by
    intro hn
    rfl
  | [.mk id (.parenArgs c)] => by
    intro hn
    rfl
  | s :: s2 :: rest => by
    intro hn
    simp only [noOneTupleSegs] at hn
    simp only [tupleNormSegs]
    rw [tupleNormSegs_noop (s2 :: rest) hn]

theorem tupleNormArgs_noop : (l : List GArg) → noOneTupleArgs l = true →
    tupleNormArgs l = l
  | [] => by
    intro hn
    rfl
  | .tyArg t :: rest => by
    intro hn
    simp only [noOneTupleArgs, Bool.and_eq_true] at hn
    simp [tupleNormArgs, tupleNorm_noop t hn.1, tupleNormArgs_noop rest hn.2]
  | .otherArg c :: rest => by
    intro hn
    simp only [noOneTupleArgs] at hn
    simp [tupleNormArgs, tupleNormArgs_noop rest hn]

theorem tupleNormList_noop : (l : List Ty) → noOneTupleList l = true →
    tupleNormList l = l
  | [] => by
    intro hn
    rfl
  | t :: rest => by
    intro hn
    simp only [noOneTupleList, Bool.and_eq_true] at hn
    simp [tupleNormList, tupleNorm_noop t hn.1, tupleNormList_noop rest hn.2]
end

mutual
theorem eraseTags_transform (tag : String) : (t : Ty) →
    eraseTags (transformRefToLifetime tag t) = eraseTags (tupleNorm t)
  | .reference m lt inner => by
    cases lt <;>
      simp [transformRefToLifetime, tupleNorm, eraseTags, eraseTags_transform tag inner]
  | .path segs => by
    simp [transformRefToLifetime, tupleNorm, eraseTags, eraseTagsSegs_transform tag segs]
  | .tuple elems => by
    simp only [transformRefToLifetime, tupleNorm]
    rw [eraseTags_tupleTokensTy, eraseTags_tupleTokensTy, eraseTagsList_transform tag elems]
  | .array e n => by
    simp [transformRefToLifetime, tupleNorm, eraseTags, eraseTags_transform tag e]
  | .slice e => by
    simp [transformRefToLifetime, tupleNorm, eraseTags, eraseTags_transform tag e]
  | .paren inner => by
    simp [transformRefToLifetime, tupleNorm, eraseTags, eraseTags_transform tag inner]
  | .other c => by simp [transformRefToLifetime, tupleNorm]

theorem eraseTagsSegs_transform (tag : String) : (segs : List Seg) →
    eraseTagsSegs (transformSegs tag segs) = eraseTagsSegs (tupleNormSegs segs)
  | [] => by simp [transformSegs, tupleNormSegs]
  | [.mk id (.angle args)] => by
    simp [transformSegs, tupleNormSegs, eraseTagsSegs, eraseTagsArgs_transform tag args]
  | [.mk id .noArgs] => by simp [transformSegs, tupleNormSegs]
  | [.mk id (.parenArgs c)] => by simp [transformSegs, tupleNormSegs]
  | s :: s2 :: rest => by
    have h := eraseTagsSegs_transform tag (s2 :: rest)
    obtain ⟨y, ys, hy⟩ := transformSegs_cons_ne_nil tag s2 rest
    obtain ⟨z, zs, hz⟩ := tupleNormSegs_cons_ne_nil s2 rest
    simp only [transformSegs, tupleNormSegs]
    rw [hy, hz]
    simp only [eraseTagsSegs]
    rw [← hy, ← hz, h]

theorem eraseTagsArgs_transform (tag : String) : (l : List GArg) →
    eraseTagsArgs (transformArgs tag l) = eraseTagsArgs (tupleNormArgs l)
  | [] => by simp [transformArgs, tupleNormArgs]
  | .tyArg t :: rest => by
    simp [transformArgs, tupleNormArgs, eraseTagsArgs, eraseTags_transform tag t,
      eraseTagsArgs_transform tag rest]
  | .otherArg c :: rest => by
    simp [transformArgs, tupleNormArgs, eraseTagsArgs, eraseTagsArgs_transform tag rest]

theorem eraseTagsList_transform (tag : String) : (l : List Ty) →
    eraseTagsList (transformList tag l) = eraseTagsList (tupleNormList l)
  | [] => by simp [transformList, tupleNormList]
  | t :: rest => by
    simp [transformList, tupleNormList, eraseTagsList, eraseTags_transform tag t,
      eraseTagsList_transform tag rest]
end

mutual
theorem refTags_transform (tag : String) : (t : Ty) →
    refTags (transformRefToLifetime tag t) = (refTags t).map (fun o => some (o.getD tag))
  | .reference m lt inner => by
    cases lt <;> simp [transformRefToLifetime, refTags, refTags_transform tag inner, Option.getD]
  | .path segs => by simp [transformRefToLifetime, refTags, refTagsSegs_transform tag segs]
  | .tuple elems => by
    simp only [transformRefToLifetime, refTags]
    rw [refTags_tupleTokensTy, refTagsList_transform tag elems]
  | .array e n => by simp [transformRefToLifetime, refTags, refTags_transform tag e]
  | .slice e => by simp [transformRefToLifetime, refTags, refTags_transform tag e]
  | .paren inner => by simp [transformRefToLifetime, refTags, refTags_transform tag inner]
  | .other c => by simp [transformRefToLifetime, refTags]

theorem refTagsSegs_transform (tag : String) : (segs : List Seg) →
    refTagsSegs (transformSegs tag segs) = (refTagsSegs segs).map (fun o => some (o.getD tag))
  | [] => by simp [transformSegs, refTagsSegs]
  | [.mk id (.angle args)] => by
    simp [transformSegs, refTagsSegs, refTagsArgs_transform tag args]
  | [.mk id .noArgs] => by simp [transformSegs, refTagsSegs]
  | [.mk id (.parenArgs c)] => by simp [transformSegs, refTagsSegs]
  | s :: s2 :: rest => by
    have h := refTagsSegs_transform tag (s2 :: rest)
    obtain ⟨y, ys, hy⟩ := transformSegs_cons_ne_nil tag s2 rest
    simp only [transformSegs]
    rw [hy]
    simp only [refTagsSegs]
    rw [← hy, h]

theorem refTagsArgs_transform (tag : String) : (l : List GArg) →
    refTagsArgs (transformArgs tag l) = (refTagsArgs l).map (fun o => some (o.getD tag))
  | [] => by simp [transformArgs, refTagsArgs]
  | .tyArg t :: rest => by
    simp [transformArgs, refTagsArgs, refTags_transform tag t, refTagsArgs_transform tag rest]
  | .otherArg c :: rest => by
    simp [transformArgs, refTagsArgs, refTagsArgs_transform tag rest]

theorem refTagsList_transform (tag : String) : (l : List Ty) →
    refTagsList (transformList tag l) = (refTagsList l).map (fun o => some (o.getD tag))
  | [] => by simp [transformList, refTagsList]
  | t :: rest => by
    simp [transformList, refTagsList, refTags_transform tag t, refTagsList_transform tag rest]
end

theorem gc_tryFnName (input : ItemFn) :
    (generate_client input).tryFnName = "try_" ++ input.sig.ident := rfl

theorem gc_argsStructName (input : ItemFn) :
    (generate_client input).argsStructName = toPascalCase input.sig.ident ++ "Args" := rfl

theorem gc_fnParams (input : ItemFn) :
    (generate_client input).fnParams = clientFnParams input := rfl

theorem gc_fieldInits (input : ItemFn) :
    (generate_client input).fieldInits = clientFieldInits input := rfl

theorem gc_argForwards (input : ItemFn) :
    (generate_client input).argForwards = clientArgForwards input := rfl

theorem gc_fnLifetimeParams (input : ItemFn) :
    (generate_client input).fnLifetimeParams =
      if clientNeedsLifetime input then ["a"] else [] := rfl

theorem gc_structDef (input : ItemFn) :
    (generate_client input).structDef =
      if (clientArgs input).isEmpty then none
      else
        some { name := toPascalCase input.sig.ident ++ "Args"
               lifetimeParams := if clientNeedsLifetime input then ["a"] else []
               fields := clientStructFields input } := by
  cases h : (clientArgs input).isEmpty <;> simp [generate_client, h]

theorem gc_invokeCall (input : ItemFn) :
    (generate_client input).invokeCall =
      if (clientArgs input).isEmpty then InvokeCall.noArgs input.sig.ident
      else InvokeCall.withArgs input.sig.ident (toPascalCase input.sig.ident ++ "Args") := by
  cases h : (clientArgs input).isEmpty <;> simp [generate_client, h]

theorem gc_tryDeserialize (input : ItemFn) :
    (generate_client input).tryDeserialize =
      generateTryDeserializeExpr (getReturnType input.sig) := rfl

theorem hasRefLastSeg_append (pfx : List Seg) (s : Seg) :
    hasRefLastSeg (pfx ++ [s]) = hasRefSeg s := by
  induction pfx with
  | nil => simp [hasRefLastSeg]
  | cons a rest ih =>
    obtain ⟨y, ys, hy⟩ := append_singleton_cons rest s
    rw [List.cons_append, hy]
    simp only [hasRefLastSeg]
    rw [← hy, ih]

theorem transformSegs_append (tag : String) (pfx : List Seg) (nm : String) (gargs : List GArg) :
    transformSegs tag (pfx ++ [Seg.mk nm (PathArgs.angle gargs)]) =
      pfx ++ [Seg.mk nm (PathArgs.angle (transformArgs tag gargs))] := by
  induction pfx with
  | nil => simp [transformSegs]
  | cons a rest ih =>
    obtain ⟨y, ys, hy⟩ := append_singleton_cons rest (Seg.mk nm (PathArgs.angle gargs))
    rw [List.cons_append, hy]
    simp only [transformSegs]
    rw [← hy, ih]
    simp

theorem hasRefArgs_false_of (l : List GArg)
    (h : ∀ t, GArg.tyArg t ∈ l → hasReferenceType t = false) : hasRefArgs l = false := by
  induction l with
  | nil => simp [hasRefArgs]
  | cons a rest ih =>
    have hrest : hasRefArgs rest = false :=
      ih fun t ht => h t (List.mem_cons_of_mem a ht)
    cases a with
    | tyArg t =>
      have ht : hasReferenceType t = false := h t (List.mem_cons_self _ _)
      simp [hasRefArgs, hasRefArg, ht, hrest]
    | otherArg c => simp [hasRefArgs, hasRefArg, hrest]

/-- C1: `hasReferenceType t` is true exactly when `t` itself, or some type
reachable from `t` by following the last path segment's generic type
arguments, tuple elements, the fixed-array element, the slice element, or
the parenthesized inner type, is a reference node; every other shape,
including the opaque leaf, yields false. -/
theorem has_borrowed_view_iff_reachable (t : Ty) :
    hasReferenceType t = true ↔ ReachesView t :=
  hasRefType_iff_view t

/-- C2 counterexample: the rewrite does not structurally mirror a
one-element tuple: the rebuilt tuple group carries no trailing separator,
so the one-element tuple of the boolean type comes back as a parenthesized
type, and the tag-blanked trees differ. -/
theorem rewrite_scope_mirror_false_at_one_tuple :
    transformRefToLifetime "a" (Ty.tuple [boolTy]) = Ty.paren boolTy ∧
    eraseTags (transformRefToLifetime "a" (Ty.tuple [boolTy])) ≠
      eraseTags (Ty.tuple [boolTy]) := by
  refine ⟨rfl, ?_⟩
  intro h
  have h2 : Ty.paren boolTy = Ty.tuple [boolTy] := h
  cases h2

/-- C2 amended: the rewrite structurally mirrors its input whenever no
traversed position holds a one-element tuple; in general its tag-blanked
tree is the input's tag-blanked tree with every traversed one-element
tuple collapsed to a parenthesized type (the rebuilt tuple group carries
no trailing separator); the lifetime slots of the traversed reference
nodes are exactly the original slots with every absent tag replaced by
the shared tag and every present tag kept; and a reference whose target
is itself a reference receives the shared tag at every reference level,
the recursion entering the inner type unconditionally. -/
theorem rewrite_scope_mirrors_and_retags (t : Ty) (tag : String) :
    (noOneTuple t = true →
      eraseTags (transformRefToLifetime tag t) = eraseTags t) ∧
    eraseTags (transformRefToLifetime tag t) = eraseTags (tupleNorm t) ∧
    refTags (transformRefToLifetime tag t) =
      (refTags t).map (fun o => some (o.getD tag)) ∧
    (∀ (m m2 : Bool) (lt lt2 : Option String) (inner : Ty),
      transformRefToLifetime tag (Ty.reference m lt (Ty.reference m2 lt2 inner)) =
        Ty.reference m (some (lt.getD tag))
          (Ty.reference m2 (some (lt2.getD tag)) (transformRefToLifetime tag inner))) := by
  refine ⟨?_, eraseTags_transform tag t, refTags_transform tag t, ?_⟩
  · intro hn
    rw [eraseTags_transform tag t, tupleNorm_noop t hn]
  · intro m m2 lt lt2 inner
    cases lt <;> cases lt2 <;> simp [transformRefToLifetime, Option.getD]

/-- Witness for the amended C2 at a concrete reference type. -/
theorem rewrite_scope_mirrors_witness :
    noOneTuple (Ty.reference false none strTy) = true ∧
    eraseTags (transformRefToLifetime "a" (Ty.reference false none strTy)) =
      eraseTags (Ty.reference false none strTy) :=
  ⟨rfl, (rewrite_scope_mirrors_and_retags (Ty.reference false none strTy) "a").1 rfl⟩

/-- C7 counterexample: the one-element tuple of a 32-bit unsigned integer
contains no reference at any depth, yet the rewrite is not a no-op on it:
the rebuilt tuple group carries no trailing separator, so the tuple comes
back as a parenthesized type. -/
theorem no_ref_noop_false_at_one_tuple :
    hasReferenceType (Ty.tuple [u32Ty]) = false ∧
    (¬ ReachesView (Ty.tuple [u32Ty])) ∧
    transformRefToLifetime "a" (Ty.tuple [u32Ty]) ≠ Ty.tuple [u32Ty] ∧
    transformRefToLifetime "a" (Ty.tuple [u32Ty]) = Ty.paren u32Ty := by
  refine ⟨rfl, ?_, ?_, rfl⟩
  · rw [reachesView_tuple]
    rintro ⟨u, hu, hr⟩
    rw [List.mem_singleton] at hu
    subst hu
    rw [show u32Ty = Ty.path [Seg.mk "u32" PathArgs.noArgs] from rfl,
      reachesView_path] at hr
    rcases hr with ⟨n, args, hlast, -⟩
    rw [List.getLast?_singleton] at hlast
    injection hlast with h3
    injection h3 with h4 h5
    cases h5
  · intro h
    have h2 : Ty.paren u32Ty = Ty.tuple [u32Ty] := h
    cases h2

/-- C7 amended: a type from which no borrowed view is reachable is
reported reference-free by the analyzer, and, provided no traversed
position of it holds a one-element tuple, is returned unchanged by the
rewriter (the restriction is forced: the rebuilt tuple group carries no
trailing separator, so a one-element tuple comes back parenthesized);
rewriting a rewritten tree with the same tag again returns it unchanged
(idempotence under retagging) for every type. -/
theorem no_view_noop_and_retag_idempotent (t : Ty) (tag : String) :
    (¬ ReachesView t →
      hasReferenceType t = false ∧
      (noOneTuple t = true → transformRefToLifetime tag t = t)) ∧
    transformRefToLifetime tag (transformRefToLifetime tag t) =
      transformRefToLifetime tag t := by
  refine ⟨fun hnot => ?_, transform_idem tag t⟩
  have hf : hasReferenceType t = false := by
    rcases Bool.eq_false_or_eq_true (hasReferenceType t) with h | h
    · exact absurd ((hasRefType_iff_view t).mp h) hnot
    · exact h
  exact ⟨hf, fun hn => transform_noop tag t hf hn⟩

/-- Witness for the amended C7 at a concrete reference-free type. -/
theorem no_view_noop_witness :
    hasReferenceType (Ty.other "u32") = false ∧
    noOneTuple (Ty.other "u32") = true ∧
    transformRefToLifetime "a" (Ty.other "u32") = Ty.other "u32" := by
  have h := (no_view_noop_and_retag_idempotent (Ty.other "u32") "a").1 (reachesView_other "u32")
  exact ⟨h.1, rfl, h.2 rfl⟩

/-- C4 counterexample: the unsigned 8-bit identity is a fixed-width
numeric identity, yet the selector routes it to the generic fallback with
the generic message, not to the numeric-decode template. -/
theorem numeric_decode_false_at_u8 :
    "u8" ∈ fixedWidthNumericIdentities ∧
    generateTryDeserializeExpr "u8" ≠
      DecodeExpr.fromValueMapErr "Failed to deserialize number" ∧
    generateTryDeserializeExpr "u8" =
      DecodeExpr.fromValueMapErr "Failed to deserialize response" := by
  decide

/-- C4 amended: exactly the eight identities the source's chain tests
(the 32- and 64-bit integers, the pointer-sized integers, and the two
floating-point widths) select the numeric-decode template; the remaining
fixed-width integer identities fall to the generic fallback. -/
theorem numeric_identities_decode (s : String) :
    (s ∈ (["i32", "i64", "u32", "u64", "f32", "f64", "isize", "usize"] : List String) →
      generateTryDeserializeExpr s =
        DecodeExpr.fromValueMapErr "Failed to deserialize number") ∧
    (s ∈ (["i8", "i16", "i128", "u8", "u16", "u128"] : List String) →
      generateTryDeserializeExpr s =
        DecodeExpr.fromValueMapErr "Failed to deserialize response") := by
  constructor
  · intro h
    simp only [List.mem_cons, List.not_mem_nil, or_false] at h
    rcases h with rfl | rfl | rfl | rfl | rfl | rfl | rfl | rfl <;> decide
  · intro h
    simp only [List.mem_cons, List.not_mem_nil, or_false] at h
    rcases h with rfl | rfl | rfl | rfl | rfl | rfl <;> decide

/-- Witness for the amended C4 at the 32-bit signed identity. -/
theorem numeric_identities_decode_witness :
    generateTryDeserializeExpr "i32" =
      DecodeExpr.fromValueMapErr "Failed to deserialize number" :=
  (numeric_identities_decode "i32").1 (by decide)

/-- C5 counterexample: the 32-bit signed identity is none of the
text-string, absence-of-value or boolean identities, yet it does not get
the generic deserialize-failure message: it gets the numeric one. -/
theorem decode_generic_false_at_i32 :
    ("i32" ≠ "String" ∧ "i32" ≠ "()" ∧ "i32" ≠ "bool") ∧
    generateTryDeserializeExpr "i32" ≠
      DecodeExpr.fromValueMapErr "Failed to deserialize response" := by
  decide

/-- C5 amended: the dispatch on the whitespace-normalized textual identity
sends the text-string identity to the string accessor with the
expected-string message, the absence-of-value identity to the
unconditionally succeeding template, the boolean identity to the boolean
accessor with the expected-bool message, the eight numeric identities to
the structured decode with the numeric-failure message, and every
remaining identity to the structured decode with the generic message;
the accessor templates fail with their messages exactly when the
dispatched-call result lacks the expected scalar, and the
absence-of-value template succeeds without inspecting the result. -/
theorem decode_dispatch_text_identity (s : String) :
    (s = "String" →
      generateTryDeserializeExpr s = DecodeExpr.asStringOr "Expected string response") ∧
    (s = "()" → generateTryDeserializeExpr s = DecodeExpr.okUnit) ∧
    (s = "bool" →
      generateTryDeserializeExpr s = DecodeExpr.asBoolOr "Expected bool response") ∧
    (isNumericIdentity s = true →
      generateTryDeserializeExpr s =
        DecodeExpr.fromValueMapErr "Failed to deserialize number") ∧
    (s ≠ "String" → s ≠ "()" → s ≠ "bool" → isNumericIdentity s = false →
      generateTryDeserializeExpr s =
        DecodeExpr.fromValueMapErr "Failed to deserialize response") ∧
    (∀ v : JsValue, runDecode DecodeExpr.okUnit v = none) ∧
    (∀ v : JsValue, v.stringVal = none →
      runDecode (DecodeExpr.asStringOr "Expected string response") v =
        some "Expected string response") ∧
    (∀ v : JsValue, v.boolVal = none →
      runDecode (DecodeExpr.asBoolOr "Expected bool response") v =
        some "Expected bool response") := by
  refine ⟨?_, ?_, ?_, ?_, ?_, ?_, ?_, ?_⟩
  · rintro rfl
    decide
  · rintro rfl
    decide
  · rintro rfl
    decide
  · intro hnum
    have h1 : s ≠ "String" := by
      rintro rfl
      exact absurd hnum (by decide)
    have h2 : s ≠ "()" := by
      rintro rfl
      exact absurd hnum (by decide)
    have h3 : s ≠ "bool" := by
      rintro rfl
      exact absurd hnum (by decide)
    simp [generateTryDeserializeExpr, h1, h2, h3, hnum]
  · intro h1 h2 h3 h4
    simp [generateTryDeserializeExpr, h1, h2, h3, h4]
  · intro v
    rfl
  · intro v hv
    simp [runDecode, hv]
  · intro v hv
    simp [runDecode, hv]

/-- Witness for the amended C5 at the text-string identity. -/
theorem decode_dispatch_witness :
    generateTryDeserializeExpr "String" = DecodeExpr.asStringOr "Expected string response" :=
  (decode_dispatch_text_identity "String").1 rfl

/-- C3: when some typed parameter's type contains a reference at any
nesting depth, the client functions carry exactly the one shared lifetime,
the synthesized args struct exists and carries exactly the one shared
lifetime, and in the struct fields as well as in the client function
parameter list every parameter type's traversed reference slots are the
original slots with every untagged slot now holding the shared tag and
every explicit tag kept. -/
theorem shared_lifetime_for_reference_params (input : ItemFn)
    (h : ∃ a ∈ clientArgs input, hasReferenceType a.2 = true) :
    (generate_client input).fnLifetimeParams = ["a"] ∧
    (∃ sd, (generate_client input).structDef = some sd ∧
      sd.lifetimeParams = ["a"] ∧
      sd.fields.map (fun f => refTags f.2) =
        (clientArgs input).map (fun a => (refTags a.2).map (fun o => some (o.getD "a"))) ∧
      sd.fields.map (fun f => f.1) = (clientArgs input).map (fun a => a.1)) ∧
    (generate_client input).fnParams.map (fun f => refTags f.2) =
      (clientArgs input).map (fun a => (refTags a.2).map (fun o => some (o.getD "a"))) := by
  have hnl : clientNeedsLifetime input = true := by
    rcases h with ⟨a, ha, hr⟩
    exact List.any_eq_true.mpr ⟨a, ha, hr⟩
  have hne : (clientArgs input).isEmpty = false := by
    rcases h with ⟨a, ha, _⟩
    cases hc : clientArgs input with
    | nil =>
      rw [hc] at ha
      exact absurd ha (List.not_mem_nil a)
    | cons x xs => simp [hc]
  have hfields : clientStructFields input =
      (clientArgs input).map (fun a => (a.1, transformRefToLifetime "a" a.2)) := by
    simp [clientStructFields, hnl]
  have hparams : clientFnParams input =
      (clientArgs input).map (fun a => (a.1, transformRefToLifetime "a" a.2)) := by
    simp [clientFnParams, hnl]
  have hmapTags :
      ((clientArgs input).map (fun a => (a.1, transformRefToLifetime "a" a.2))).map
          (fun f => refTags f.2) =
        (clientArgs input).map (fun a => (refTags a.2).map (fun o => some (o.getD "a"))) := by
    rw [List.map_map]
    apply List.map_congr_left
    intro a ha
    simp only [Function.comp_apply]
    exact refTags_transform "a" a.2
  refine ⟨?_, ⟨?_, ?_, ?_, ?_, ?_⟩, ?_⟩
  · rw [gc_fnLifetimeParams, hnl]
    simp
  · exact { name := toPascalCase input.sig.ident ++ "Args"
            lifetimeParams := if clientNeedsLifetime input then ["a"] else []
            fields := clientStructFields input }
  · rw [gc_structDef]
    simp [hne]
  · simp [hnl]
  · rw [hfields, hmapTags]
  · rw [hfields, List.map_map]
    apply List.map_congr_left
    intro a ha
    rfl
  · rw [gc_fnParams, hparams, hmapTags]

/-- Witness for C3 at the greeting example. -/
theorem shared_lifetime_witness :
    (∃ a ∈ clientArgs greetFn, hasReferenceType a.2 = true) ∧
    (generate_client greetFn).fnLifetimeParams = ["a"] := by
  have hmem : (Pat.ident "name", Ty.reference false none strTy) ∈ clientArgs greetFn := by
    rw [show clientArgs greetFn = [(Pat.ident "name", Ty.reference false none strTy)] from rfl]
    exact List.mem_singleton.mpr rfl
  have h : ∃ a ∈ clientArgs greetFn, hasReferenceType a.2 = true := ⟨_, hmem, rfl⟩
  exact ⟨h, (shared_lifetime_for_reference_params greetFn h).1⟩

/-- C6: the args struct is synthesized exactly when the typed parameter
list is nonempty, its name is the Pascal form of the function name with
the Args suffix, and its fields are the parameters in declaration order
with their possibly rewritten types. -/
theorem args_record_iff_params (input : ItemFn) :
    ((generate_client input).structDef.isSome ↔ clientArgs input ≠ []) ∧
    (∀ sd, (generate_client input).structDef = some sd →
      sd.name = toPascalCase input.sig.ident ++ "Args" ∧
      sd.fields = (clientArgs input).map (fun a =>
        (a.1, if clientNeedsLifetime input then transformRefToLifetime "a" a.2
          else a.2))) := by
  constructor
  · cases hc : clientArgs input with
    | nil => simp [gc_structDef, hc]
    | cons x xs => simp [gc_structDef, hc]
  · intro sd hsd
    rw [gc_structDef] at hsd
    cases hc : (clientArgs input).isEmpty
    · rw [hc] at hsd
      simp only [Bool.false_eq_true, if_false, Option.some.injEq] at hsd
      rw [← hsd]
      exact ⟨rfl, rfl⟩
    · rw [hc] at hsd
      simp at hsd

/-- Witness for C6 at the greeting example. -/
theorem args_record_witness :
    ((generate_client greetFn).structDef.isSome ↔ clientArgs greetFn ≠ []) ∧
    greetSd.name = toPascalCase greetFn.sig.ident ++ "Args" :=
  ⟨(args_record_iff_params greetFn).1,
   ((args_record_iff_params greetFn).2 greetSd (by rfl)).1⟩

/-- C8: the invoke call of the fallible client function is addressed to
the function's declared name in the with-arguments case and in the
zero-arguments case alike, and that name is never the derived try name. -/
theorem dispatch_uses_declared_name (input : ItemFn) :
    ((clientArgs input ≠ [] ∧
        (generate_client input).invokeCall =
          InvokeCall.withArgs input.sig.ident (generate_client input).argsStructName) ∨
      (clientArgs input = [] ∧
        (generate_client input).invokeCall = InvokeCall.noArgs input.sig.ident)) ∧
    (generate_client input).tryFnName = "try_" ++ input.sig.ident ∧
    ((generate_client input).invokeCall).callName ≠ (generate_client input).tryFnName := by
  have hname : ((generate_client input).invokeCall).callName = input.sig.ident := by
    cases hc : clientArgs input with
    | nil => simp [gc_invokeCall, hc, InvokeCall.callName]
    | cons x xs => simp [gc_invokeCall, hc, InvokeCall.callName]
  refine ⟨?_, rfl, ?_⟩
  · cases hc : clientArgs input with
    | nil => exact Or.inr ⟨rfl, by simp [gc_invokeCall, hc]⟩
    | cons x xs =>
      refine Or.inl ⟨by simp [hc], ?_⟩
      rw [gc_invokeCall, gc_argsStructName, hc]
      simp
  · rw [hname, gc_tryFnName]
    intro heq
    have hlen := congrArg String.length heq
    rw [String.length_append] at hlen
    have h4 : ("try_" : String).length = 4 := rfl
    omega

/-- C9 counterexample: a named type whose sole generic type argument is a
reference-free one-element tuple is reported reference-free, yet the
rewriter does change it: the argument's rebuilt tuple group carries no
trailing separator, so the one-element tuple comes back parenthesized. -/
theorem lifetime_only_generics_false_at_one_tuple :
    hasReferenceType (Ty.tuple [boolTy]) = false ∧
    hasReferenceType fooOneTupleTy = false ∧
    transformRefToLifetime "a" fooOneTupleTy =
      Ty.path [Seg.mk "Foo" (PathArgs.angle [GArg.tyArg (Ty.paren boolTy)])] ∧
    transformRefToLifetime "a" fooOneTupleTy ≠ fooOneTupleTy := by
  refine ⟨rfl, rfl, rfl, ?_⟩
  intro h
  have h2 : Ty.path [Seg.mk "Foo" (PathArgs.angle [GArg.tyArg (Ty.paren boolTy)])] =
      Ty.path [Seg.mk "Foo" (PathArgs.angle [GArg.tyArg (Ty.tuple [boolTy])])] := h
  injection h2 with h3
  injection h3 with h4 h5
  injection h4 with h6 h7
  injection h7 with h8
  injection h8 with h9 h10
  injection h9 with h11
  cases h11

/-- C9 amended: a named type whose last segment's generic list has no type
argument containing a reference is reported reference-free; provided
additionally that no traversed position of those arguments holds a
one-element tuple, the rewriter returns it unchanged (the restriction is
forced: a one-element tuple argument is re-emitted parenthesized); and a
function taking such a parameter gets client functions with no shared
lifetime in every case. -/
theorem lifetime_only_generics_no_view (pfx : List Seg) (nm : String)
    (gargs : List GArg) (tag : String)
    (h : ∀ t, GArg.tyArg t ∈ gargs → hasReferenceType t = false) :
    hasReferenceType (Ty.path (pfx ++ [Seg.mk nm (PathArgs.angle gargs)])) = false ∧
    (noOneTupleArgs gargs = true →
      transformRefToLifetime tag (Ty.path (pfx ++ [Seg.mk nm (PathArgs.angle gargs)])) =
        Ty.path (pfx ++ [Seg.mk nm (PathArgs.angle gargs)])) ∧
    (∀ (v fnName pn : String) (rty : Option Ty),
      (generate_client
        { vis := v
          sig := { ident := fnName
                   inputs := [FnArg.typed (Pat.ident pn)
                     (Ty.path (pfx ++ [Seg.mk nm (PathArgs.angle gargs)]))]
                   output := rty } }).fnLifetimeParams = []) := by
  have hargs : hasRefArgs gargs = false := hasRefArgs_false_of gargs h
  have h1 : hasReferenceType (Ty.path (pfx ++ [Seg.mk nm (PathArgs.angle gargs)])) = false := by
    simp only [hasReferenceType]
    rw [hasRefLastSeg_append]
    simp [hasRefSeg, hargs]
  refine ⟨h1, ?_, ?_⟩
  · intro hno
    simp only [transformRefToLifetime]
    rw [transformSegs_append, transformArgs_noop tag gargs hargs hno]
  · intro v fnName pn rty
    rw [gc_fnLifetimeParams]
    have hnl : clientNeedsLifetime
        { vis := v
          sig := { ident := fnName
                   inputs := [FnArg.typed (Pat.ident pn)
                     (Ty.path (pfx ++ [Seg.mk nm (PathArgs.angle gargs)]))]
                   output := rty } } = false := by
      simp [clientNeedsLifetime, clientArgs, h1]
    simp [hnl]

/-- Witness for the amended C9 at the clone-on-write example. -/
theorem lifetime_only_generics_witness :
    hasReferenceType cowTy = false ∧
    noOneTupleArgs [GArg.otherArg "'_", GArg.tyArg strTy] = true ∧
    transformRefToLifetime "a" cowTy = cowTy ∧
    (generate_client takesCowFn).fnLifetimeParams = [] := by
  have h : ∀ t, GArg.tyArg t ∈ [GArg.otherArg "'_", GArg.tyArg strTy] →
      hasReferenceType t = false := by
    intro t ht
    rcases List.mem_cons.mp ht with h1 | h2
    · cases h1
    · have h3 := List.mem_singleton.mp h2
      injection h3 with h4
      rw [h4]
      rfl
  have main := lifetime_only_generics_no_view
      [Seg.mk "std" PathArgs.noArgs, Seg.mk "borrow" PathArgs.noArgs] "Cow"
      [GArg.otherArg "'_", GArg.tyArg strTy] "a" h
  exact ⟨main.1, rfl, main.2.1 rfl, main.2.2 "pub" "takes_cow" "s" (some stringTy)⟩

/-- C10: every typed parameter contributes a struct field and a client
function parameter with its own pattern, while the field initializer list
and the forwarded-argument list enumerate exactly the plain-identifier
parameters in declaration order. -/
theorem non_ident_patterns_fields_not_inits (input : ItemFn) :
    (∀ sd, (generate_client input).structDef = some sd →
      sd.fields.map (fun f => f.1) = (clientArgs input).map (fun a => a.1)) ∧
    (generate_client input).fnParams.map (fun f => f.1) =
      (clientArgs input).map (fun a => a.1) ∧
    (generate_client input).fieldInits =
      (clientArgs input).filterMap (fun a => patIdentName a.1) ∧
    (generate_client input).argForwards =
      (clientArgs input).filterMap (fun a => patIdentName a.1) := by
  refine ⟨?_, ?_, rfl, rfl⟩
  · intro sd hsd
    rw [gc_structDef] at hsd
    cases hc : (clientArgs input).isEmpty
    · rw [hc] at hsd
      simp only [Bool.false_eq_true, if_false, Option.some.injEq] at hsd
      rw [← hsd]
      simp [clientStructFields, List.map_map, Function.comp]
    · rw [hc] at hsd
      simp at hsd
  · rw [gc_fnParams]
    simp [clientFnParams, List.map_map, Function.comp]

/-- Witness for C10 at the tuple-pattern example. -/
theorem non_ident_patterns_witness :
    (generate_client pairFn).structDef = some pairSd ∧
    pairSd.fields.map (fun f => f.1) = (clientArgs pairFn).map (fun a => a.1) ∧
    (generate_client pairFn).fieldInits = ["x"] ∧
    (generate_client pairFn).argForwards = ["x"] := by
  refine ⟨rfl, (non_ident_patterns_fields_not_inits pairFn).1 pairSd rfl, ?_, ?_⟩
  · rw [(non_ident_patterns_fields_not_inits pairFn).2.2.1]
    rfl
  · rw [(non_ident_patterns_fields_not_inits pairFn).2.2.2]
    rfl
